import Mathlib

/-!
Verification of the weekly review-summary backfill pipeline.

Dates are embedded as integers counting days from a fixed epoch chosen so
that day 0 is a Monday; then Python's `date.weekday()` (Mon=0 .. Sun=6) is
`d % 7`, and `timedelta` arithmetic is plain integer arithmetic.
-/

namespace ReviewBackfill

/-- Python `date.weekday()` under the day-number embedding (Mon=0 .. Sun=6). -/
def weekday (d : Int) : Int := d % 7

/-- From `src/app/utils.py`, `last_complete_fri_to_thu`: returns the last
complete Friday-to-Thursday window before `today` (the source returns the
two dates ISO-formatted; the embedding returns the dates themselves). -/
def last_complete_fri_to_thu (today : Int) : Int × Int :=
  let wd := weekday today
  let days_since_thu := if wd ≥ 4 then wd - 3 else wd + 4
  let last_thu := today - days_since_thu
  let last_fri := last_thu - 6
  (last_fri, last_thu)

theorem weekday_lb (d : Int) : 0 ≤ weekday d := Int.emod_nonneg d (by norm_num)

theorem weekday_ub (d : Int) : weekday d < 7 :=
  Int.emod_lt_of_pos d (by norm_num)

/-- From `src/backfill.py`, `iter_weeks`: the while loop
`while cur <= end: yield cur, min(cur + timedelta(days=6), end); cur += timedelta(days=7)`
(the clipped iterator; `src/main.py` `_iter_fri_thu_weeks` is the same loop). -/
def iter_weeks (s e : Int) : List (Int × Int) :=
  if h : s ≤ e then (s, min (s + 6) e) :: iter_weeks (s + 7) e else []
termination_by (e + 1 - s).toNat
decreasing_by omega

/-- From `src/backfill_runner.py`, `_iter_fri_thu_weeks`: the while loop
`while cur <= end_d: yield cur, cur + timedelta(days=6); cur += timedelta(days=7)`
(no clipping of the final chunk against `end_d`). -/
def fri_thu_weeks (s e : Int) : List (Int × Int) :=
  if h : s ≤ e then (s, s + 6) :: fri_thu_weeks (s + 7) e else []
termination_by (e + 1 - s).toNat
decreasing_by omega

theorem mem_iter_weeks (s e : Int) (c : Int × Int) :
    c ∈ iter_weeks s e ↔
      ∃ k : Nat, s + 7 * k ≤ e ∧ c = (s + 7 * k, min (s + 7 * k + 6) e) := by
  induction s, e using iter_weeks.induct with
  | case1 s e h ih =>
    rw [iter_weeks, dif_pos h, List.mem_cons, ih]
    constructor
    · rintro (rfl | ⟨k, hk, rfl⟩)
      · exact ⟨0, by omega, by norm_num⟩
      · refine ⟨k + 1, ?_, ?_⟩
        · push_cast at hk ⊢; omega
        · have harith : s + 7 * ((k + 1 : Nat) : Int) = s + 7 + 7 * (k : Int) := by
            push_cast; ring
          rw [harith]
    · rintro ⟨k, hk, rfl⟩
      match k with
      | 0 => left; norm_num
      | Nat.succ j =>
        right
        refine ⟨j, by push_cast at hk ⊢; omega, ?_⟩
        have harith : s + 7 * ((j + 1 : Nat) : Int) = s + 7 + 7 * (j : Int) := by
          push_cast; ring
        rw [harith]
  | case2 s e h =>
    rw [iter_weeks, dif_neg h]
    simp only [List.not_mem_nil, false_iff, not_exists, not_and]
    intro k hk
    exfalso
    have : (0 : Int) ≤ 7 * (k : Int) := by positivity
    omega

theorem iter_weeks_sum (s e : Int) (h : s ≤ e) :
    ((iter_weeks s e).map (fun c => c.2 - c.1 + 1)).sum = e - s + 1 := by
  induction s, e using iter_weeks.induct with
  | case1 s e h1 ih =>
    rw [iter_weeks, dif_pos h1]
    by_cases h2 : s + 7 ≤ e
    · have := ih h2
      simp only [List.map_cons, List.sum_cons, this]
      have hmin : min (s + 6) e = s + 6 := by omega
      rw [hmin]; ring
    · have hempty : iter_weeks (s + 7) e = [] := by
        rw [iter_weeks, dif_neg h2]
      simp only [List.map_cons, List.sum_cons, hempty, List.map_nil, List.sum_nil]
      have hmin : min (s + 6) e = e := by omega
      rw [hmin]; ring
  | case2 s e h1 => omega

theorem fri_thu_weeks_eq_iter_weeks (s e : Int) :
    (e - s) % 7 = 6 → fri_thu_weeks s e = iter_weeks s e := by
  induction s, e using iter_weeks.induct with
  | case1 s e h ih =>
    intro hmod
    rw [iter_weeks, dif_pos h, fri_thu_weeks, dif_pos h]
    have hmin : min (s + 6) e = s + 6 := by omega
    rw [hmin, ih (by omega)]
  | case2 s e h =>
    intro hmod
    rw [iter_weeks, dif_neg h, fri_thu_weeks, dif_neg h]

/-- C2: for every reference date `today`, `last_complete_fri_to_thu` returns a
pair `(friday, thursday)` with `thursday - friday = 6` days, `friday` a Friday
and `thursday` a Thursday, with `thursday` strictly before `today`; hence the
returned window never contains `today` (so in particular it never contains
`today` except when `today` is that Thursday — a case the code never produces,
since even on a Thursday it returns the previous week's Thursday). -/
theorem last_complete_fri_to_thu_spec (today : Int) :
    (last_complete_fri_to_thu today).2 - (last_complete_fri_to_thu today).1 = 6 ∧
    weekday (last_complete_fri_to_thu today).1 = 4 ∧
    weekday (last_complete_fri_to_thu today).2 = 3 ∧
    (last_complete_fri_to_thu today).2 < today ∧
    (∀ d : Int, (last_complete_fri_to_thu today).1 ≤ d →
      d ≤ (last_complete_fri_to_thu today).2 → d < today) := by
  have h0 : 0 ≤ weekday today := weekday_lb today
  have h7 : weekday today < 7 := weekday_ub today
  unfold last_complete_fri_to_thu weekday at *
  dsimp only
  split <;>
    exact ⟨by omega, by omega, by omega, by omega, fun d h1 h2 => by omega⟩

/-- Witness for C2 at `today = 10` (a Thursday): the returned window is
`(-3, 3)`, spanning 6 days, ending strictly before day 10, and day 3 of the
window lies strictly before `today`. -/
theorem last_complete_fri_to_thu_spec_witness :
    (last_complete_fri_to_thu 10).2 - (last_complete_fri_to_thu 10).1 = 6 ∧
    (3 : Int) < 10 :=
  ⟨(last_complete_fri_to_thu_spec 10).1,
   (last_complete_fri_to_thu_spec 10).2.2.2.2 3 (by decide) (by decide)⟩

/-- C3 (amended): for every `start <= end`, the clipped week iterator
(`iter_weeks` in `src/backfill.py`, identically `_iter_fri_thu_weeks` in
`src/main.py`) covers `[start, end]` with no gaps and no overlaps, every
chunk stays inside `[start, end]`, each chunk is 7 days long except possibly
a shortened final chunk ending exactly at `end`, and the chunk lengths sum
to `(end - start) + 1`; the unclipped `_iter_fri_thu_weeks` of
`src/backfill_runner.py` agrees with it (hence shares these properties)
exactly on aligned ranges where `(end - start) % 7 = 6`, its documented
precondition. -/
theorem iter_weeks_spec (s e : Int) (h : s ≤ e) :
    (∀ c ∈ iter_weeks s e, s ≤ c.1 ∧ c.1 ≤ c.2 ∧ c.2 ≤ e) ∧
    (∀ d : Int, s ≤ d → d ≤ e → ∃ c ∈ iter_weeks s e, c.1 ≤ d ∧ d ≤ c.2) ∧
    (∀ c ∈ iter_weeks s e, ∀ c2 ∈ iter_weeks s e, c ≠ c2 → c.2 < c2.1 ∨ c2.2 < c.1) ∧
    (∀ c ∈ iter_weeks s e, c.2 - c.1 + 1 = 7 ∨ c.2 = e) ∧
    ((iter_weeks s e).map (fun c => c.2 - c.1 + 1)).sum = e - s + 1 ∧
    ((e - s) % 7 = 6 → fri_thu_weeks s e = iter_weeks s e) := by
  refine ⟨?_, ?_, ?_, ?_, iter_weeks_sum s e h, fri_thu_weeks_eq_iter_weeks s e⟩
  · intro c hc
    rw [mem_iter_weeks] at hc
    obtain ⟨k, hk, rfl⟩ := hc
    dsimp only
    omega
  · intro d hd1 hd2
    obtain ⟨K, hK⟩ : ∃ K : Nat, (K : Int) = (d - s) / 7 :=
      ⟨((d - s) / 7).toNat, by omega⟩
    refine ⟨(s + 7 * K, min (s + 7 * K + 6) e),
      (mem_iter_weeks s e _).mpr ⟨K, by omega, rfl⟩, ?_, ?_⟩ <;> dsimp only <;> omega
  · intro c hc c2 hc2 hne
    rw [mem_iter_weeks] at hc hc2
    obtain ⟨k, hk, rfl⟩ := hc
    obtain ⟨k2, hk2, rfl⟩ := hc2
    have hkk : k ≠ k2 := by rintro rfl; exact hne rfl
    dsimp only
    omega
  · intro c hc
    rw [mem_iter_weeks] at hc
    obtain ⟨k, hk, rfl⟩ := hc
    dsimp only
    omega

/-- Witness for C3 at the aligned range `[0, 6]`: the chunk lengths sum to
`6 - 0 + 1` and the unclipped iterator agrees with the clipped one. -/
theorem iter_weeks_spec_witness :
    ((iter_weeks 0 6).map (fun c => c.2 - c.1 + 1)).sum = 6 - 0 + 1 ∧
    fri_thu_weeks 0 6 = iter_weeks 0 6 :=
  ⟨(iter_weeks_spec 0 6 (by norm_num)).2.2.2.2.1,
   (iter_weeks_spec 0 6 (by norm_num)).2.2.2.2.2 (by norm_num)⟩

/-- C3 counterexample: on the one-day range `start = end = 0` (a valid pair
with `start <= end`), `_iter_fri_thu_weeks` of `src/backfill_runner.py`
yields the single chunk `(0, 6)` whose end `6` exceeds the overall end `0`,
and the chunk lengths sum to `7`, not `(end - start) + 1 = 1`; so the claim
as stated fails for that iterator. -/
theorem fri_thu_weeks_exceeds_end :
    fri_thu_weeks 0 0 = [(0, 6)] ∧
    ((0 : Int), (6 : Int)) ∈ fri_thu_weeks 0 0 ∧ ¬ ((6 : Int) ≤ (0 : Int)) ∧
    ((fri_thu_weeks 0 0).map (fun c => c.2 - c.1 + 1)).sum ≠ 0 - 0 + 1 := by
  have h1 : fri_thu_weeks 0 0 = [(0, 6)] := by
    rw [fri_thu_weeks, dif_pos (by norm_num : (0 : Int) ≤ 0), fri_thu_weeks,
        dif_neg (by norm_num : ¬ (0 : Int) + 7 ≤ 0)]
    norm_num
  refine ⟨h1, by rw [h1]; exact List.mem_singleton_self _, by norm_num, ?_⟩
  rw [h1]; norm_num

/-! ### Completeness check (`src/main.py`, `process_window`, step 2)

A fetched review is embedded as its parsed date: `some d` when
`_to_date(r.get("date"))` succeeds, `none` when the date is missing or
unparseable (such rows are skipped by the counting loop). -/

/-- `all_days`: `[start_date + timedelta(days=i) for i in range((end_date - start_date).days + 1)]`. -/
def window_days (s e : Int) : List Int :=
  (List.range (e - s + 1).toNat).map (fun i : Nat => s + (i : Int))

/-- The counting condition of the loop: a review row with parsed date `x`
is tallied under day `d` when `x = d` and `start_date <= x <= end_date`;
rows with missing or unparseable dates (`none`) are skipped. -/
def tallied_on (s e d : Int) : Option Int → Bool
  | some x => x == d && decide (s ≤ x) && decide (x ≤ e)
  | none => false

/-- `cnt.get(d, 0)` after the counting loop. -/
def day_count (s e : Int) (dates : List (Option Int)) (d : Int) : Nat :=
  (dates.filter (tallied_on s e d)).length

/-- `zero_days = [day for day in all_days if cnt.get(day, 0) == 0]`. -/
def zero_days (s e : Int) (dates : List (Option Int)) : List Int :=
  (window_days s e).filter (fun d => day_count s e dates d == 0)

/-- The completeness gate: `some zs` models
`raise RuntimeError("Reviews data incomplete: zero rows on <zs> ...")`
(the error message lists exactly `zero_days`), `none` models proceeding. -/
def completeness_check (s e : Int) (dates : List (Option Int)) : Option (List Int) :=
  if (zero_days s e dates).isEmpty then none else some (zero_days s e dates)

theorem mem_window_days (s e d : Int) : d ∈ window_days s e ↔ s ≤ d ∧ d ≤ e := by
  simp only [window_days, List.mem_map, List.mem_range]
  constructor
  · rintro ⟨i, hi, rfl⟩
    omega
  · rintro ⟨h1, h2⟩
    exact ⟨(d - s).toNat, by omega, by omega⟩

theorem tallied_on_iff (s e d : Int) (od : Option Int) :
    tallied_on s e d od = true ↔ od = some d ∧ s ≤ d ∧ d ≤ e := by
  match od with
  | none => simp [tallied_on]
  | some x =>
    simp only [tallied_on, Bool.and_eq_true, beq_iff_eq, decide_eq_true_eq,
      Option.some.injEq]
    constructor
    · rintro ⟨⟨rfl, h1⟩, h2⟩
      exact ⟨rfl, h1, h2⟩
    · rintro ⟨rfl, h1, h2⟩
      exact ⟨⟨rfl, h1⟩, h2⟩

theorem day_count_eq_zero (s e d : Int) (dates : List (Option Int))
    (h1 : s ≤ d) (h2 : d ≤ e) :
    day_count s e dates d = 0 ↔ some d ∉ dates := by
  unfold day_count
  rw [List.length_eq_zero, List.filter_eq_nil_iff]
  constructor
  · intro hall hmem
    exact hall _ hmem ((tallied_on_iff s e d (some d)).mpr ⟨rfl, h1, h2⟩)
  · intro hnot od hod hcond
    obtain ⟨rfl, -, -⟩ := (tallied_on_iff s e d od).mp hcond
    exact hnot hod

theorem mem_zero_days (s e d : Int) (dates : List (Option Int)) :
    d ∈ zero_days s e dates ↔ s ≤ d ∧ d ≤ e ∧ some d ∉ dates := by
  simp only [zero_days, List.mem_filter, mem_window_days, beq_iff_eq]
  constructor
  · rintro ⟨⟨hd1, hd2⟩, hz⟩
    exact ⟨hd1, hd2, (day_count_eq_zero s e d dates hd1 hd2).mp hz⟩
  · rintro ⟨hd1, hd2, hz⟩
    exact ⟨⟨hd1, hd2⟩, (day_count_eq_zero s e d dates hd1 hd2).mpr hz⟩

/-- C4: for every window `[start, end]` and fetched review list, the window
run aborts with a RuntimeError exactly when some calendar day within
`[start, end]` has zero reviews, and the raised error lists exactly the
offending dates. -/
theorem completeness_check_spec (s e : Int) (dates : List (Option Int)) (h : s ≤ e) :
    ((completeness_check s e dates).isSome ↔
      ∃ d : Int, s ≤ d ∧ d ≤ e ∧ some d ∉ dates) ∧
    (∀ z, completeness_check s e dates = some z →
      ∀ d : Int, d ∈ z ↔ (s ≤ d ∧ d ≤ e ∧ some d ∉ dates)) := by
  constructor
  · by_cases hz : (zero_days s e dates).isEmpty
    · simp only [completeness_check, hz, if_true, Option.isSome_none,
        Bool.false_eq_true, false_iff, not_exists, not_and]
      intro d hd1 hd2 hd3
      rw [List.isEmpty_iff] at hz
      have hmem : d ∈ zero_days s e dates :=
        (mem_zero_days s e d dates).mpr ⟨hd1, hd2, hd3⟩
      rw [hz] at hmem
      exact absurd hmem (List.not_mem_nil d)
    · have hsome : completeness_check s e dates = some (zero_days s e dates) := by
        simp [completeness_check, hz]
      rw [hsome]
      simp only [Option.isSome_some, true_iff]
      rw [List.isEmpty_iff] at hz
      obtain ⟨d, hd⟩ := List.exists_mem_of_ne_nil _ hz
      exact ⟨d, (mem_zero_days s e d dates).mp hd⟩
  · intro z hz d
    by_cases he : (zero_days s e dates).isEmpty
    · simp [completeness_check, he] at hz
    · have hsome : completeness_check s e dates = some (zero_days s e dates) := by
        simp [completeness_check, he]
      rw [hsome] at hz
      obtain rfl := Option.some.inj hz
      exact mem_zero_days s e d dates

/-- Witness for C4 on the window `[0, 2]` with reviews on days 0 and 2 only:
the check aborts (day 1 has zero reviews), and the exactness clause at the
raised list says membership matches the zero-review days. -/
theorem completeness_check_spec_witness :
    (completeness_check 0 2 [some 0, some 2]).isSome ∧
    (completeness_check 0 2 [some 0, some 2] = some [1] →
      ((1 : Int) ∈ ([1] : List Int) ↔
        ((0 : Int) ≤ 1 ∧ (1 : Int) ≤ 2 ∧ some (1 : Int) ∉ [some (0 : Int), some 2]))) :=
  ⟨(completeness_check_spec 0 2 [some 0, some 2] (by norm_num)).1.mpr
      ⟨1, by norm_num, by norm_num, by decide⟩,
   fun hz => (completeness_check_spec 0 2 [some 0, some 2] (by norm_num)).2 [1] hz 1⟩

/-! ### Mention counting (`src/app/sentiment_grader.py`, `count_category_mentions`)

A review is embedded as `Option String`: `none` when `review.get(text_key)`
is missing/None (falsy, skipped), `some t` for text `t` (skipped when empty).
A category mapping is an ordered association list (Python dict): category
name to keyword list, with distinct category names. -/

/-- Python per-character `str.lower()` (agrees with CPython on ASCII text). -/
def py_lower (s : String) : String := ⟨s.toList.map Char.toLower⟩

/-- Substring occurrence on character lists (Python `needle in hay`). -/
def sub_in (n : List Char) : List Char → Bool
  | [] => n.isEmpty
  | c :: t => n.isPrefixOf (c :: t) || sub_in n t

/-- Python `needle in hay` for strings. -/
def str_in (needle hay : String) : Bool := sub_in needle.toList hay.toList

/-- The inner keyword loop: some non-empty keyword, lower-cased, occurs in
the (already lower-cased) review text; the `break` after the first hit is
the short-circuiting of `any`. -/
def review_hits (kws : List String) (text : String) : Bool :=
  kws.any (fun k => !(k == "") && str_in (py_lower k) text)

/-- `counts[cat] += 1` on a `defaultdict(int)` (insertion-ordered). -/
def bump : List (String × Nat) → String → List (String × Nat)
  | [], c => [(c, 1)]
  | (k, n) :: t, c => if k == c then (k, n + 1) :: t else (k, n) :: bump t c

/-- The category loop body for one review text. -/
def tally_cats (text : String) (cats : List (String × List String))
    (counts : List (String × Nat)) : List (String × Nat) :=
  cats.foldl (fun cs ck =>
    if ck.2.isEmpty then cs
    else if review_hits ck.2 text then bump cs ck.1 else cs) counts

/-- The review loop body: skip falsy text, otherwise lower it and tally. -/
def tally_review (cats : List (String × List String))
    (counts : List (String × Nat)) (r : Option String) : List (String × Nat) :=
  match r with
  | none => counts
  | some t => if t == "" then counts else tally_cats (py_lower t) cats counts

/-- `count_category_mentions(reviews, categories)`. -/
def count_category_mentions (reviews : List (Option String))
    (cats : List (String × List String)) : List (String × Nat) :=
  reviews.foldl (tally_review cats) []

/-- Reading the returned dict with default 0 (as the grader's merge step
does via `mention_lower.get(..., 0)`). -/
def get_count (cs : List (String × Nat)) (c : String) : Nat :=
  ((cs.find? (fun p => p.1 == c)).map Prod.snd).getD 0

/-- Declarative matcher, straight from the claim: the review has text whose
lower-cased form contains at least one lower-cased keyword of the category
as a substring. -/
def mentions_category (kws : List String) (r : Option String) : Bool :=
  match r with
  | none => false
  | some t => kws.any (fun k => str_in (py_lower k) (py_lower t))

theorem toList_eq_nil_iff (s : String) : s.toList = [] ↔ s = "" := by
  cases s with
  | mk data =>
    simp only [String.toList]
    constructor
    · rintro rfl; rfl
    · intro h
      simpa using congrArg String.data h

theorem get_count_cons (k : String) (n : Nat) (t : List (String × Nat)) (c : String) :
    get_count ((k, n) :: t) c = if k == c then n else get_count t c := by
  by_cases h : (k == c) = true <;> simp [get_count, List.find?_cons, h]

theorem get_count_bump_self (cs : List (String × Nat)) (c : String) :
    get_count (bump cs c) c = get_count cs c + 1 := by
  induction cs with
  | nil => simp [bump, get_count]
  | cons p t ih =>
    obtain ⟨k, n⟩ := p
    by_cases h : k = c
    · subst h
      simp [bump, get_count_cons]
    · have hb : (k == c) = false := by simp [beq_eq_false_iff_ne, h]
      simp only [bump, hb, Bool.false_eq_true, if_false, get_count_cons, ih]

theorem get_count_bump_other (cs : List (String × Nat)) (c c2 : String)
    (h : c2 ≠ c) : get_count (bump cs c) c2 = get_count cs c2 := by
  have hb : (c == c2) = false := by
    simp only [beq_eq_false_iff_ne]
    exact fun he => h he.symm
  induction cs with
  | nil => simp [bump, get_count, hb]
  | cons p t ih =>
    obtain ⟨k, n⟩ := p
    by_cases hk : k = c
    · subst hk
      simp [bump, get_count_cons, hb]
    · have hkb : (k == c) = false := by simp [beq_eq_false_iff_ne, hk]
      simp only [bump, hkb, Bool.false_eq_true, if_false, get_count_cons, ih]

theorem review_hits_nil (text : String) : review_hits [] text = false := rfl

theorem review_hits_eq_any (kws : List String) (text : String)
    (hkw : ∀ k ∈ kws, k ≠ "") :
    review_hits kws text = kws.any (fun k => str_in (py_lower k) text) := by
  induction kws with
  | nil => rfl
  | cons k t ih =>
    simp only [review_hits, List.any_cons] at *
    rw [ih (fun x hx => hkw x (List.mem_cons_of_mem k hx))]
    have hk : (k == "") = false := by
      simp [beq_eq_false_iff_ne, hkw k (List.mem_cons_self k t)]
    rw [hk]
    simp

theorem tally_cats_not_mem (text : String) (cats : List (String × List String)) :
    ∀ (counts : List (String × Nat)) (c : String), c ∉ cats.map Prod.fst →
    get_count (tally_cats text cats counts) c = get_count counts c := by
  induction cats with
  | nil => intro counts c h; rfl
  | cons ck t ih =>
    intro counts c h
    simp only [List.map_cons, List.mem_cons, not_or] at h
    obtain ⟨hne, htail⟩ := h
    show get_count (tally_cats text t _) c = _
    rw [ih _ c htail]
    dsimp only
    split
    · rfl
    · split
      · exact get_count_bump_other counts ck.1 c hne
      · rfl

theorem tally_cats_get (text : String) (cats : List (String × List String)) :
    ∀ (counts : List (String × Nat)) (cat : String) (kws : List String),
    (cats.map Prod.fst).Nodup → (cat, kws) ∈ cats →
    get_count (tally_cats text cats counts) cat =
      get_count counts cat + (if review_hits kws text then 1 else 0) := by
  induction cats with
  | nil => intro counts cat kws hnd hmem; cases hmem
  | cons ck t ih =>
    intro counts cat kws hnd hmem
    simp only [List.map_cons, List.nodup_cons] at hnd
    rcases List.mem_cons.mp hmem with heq | htail
    · obtain rfl := heq.symm
      show get_count (tally_cats text t _) cat = _
      rw [tally_cats_not_mem text t _ cat hnd.1]
      dsimp only
      by_cases hkws : kws.isEmpty
      · have h0 : kws = [] := by simpa [List.isEmpty_iff] using hkws
        subst h0
        simp [review_hits_nil]
      · have hb : kws.isEmpty = false := by simpa using hkws
        simp only [hb, Bool.false_eq_true, if_false]
        split
        · exact get_count_bump_self counts cat
        · rfl
    · have hcat : ck.1 ≠ cat := by
        intro he
        exact hnd.1 (he ▸ List.mem_map_of_mem Prod.fst htail)
      show get_count (tally_cats text t _) cat = _
      rw [ih _ cat kws hnd.2 htail]
      congr 1
      dsimp only
      split
      · rfl
      · split
        · exact get_count_bump_other counts ck.1 cat (Ne.symm hcat)
        · rfl

theorem tally_review_get (cats : List (String × List String))
    (counts : List (String × Nat)) (r : Option String) (cat : String)
    (kws : List String) (hnd : (cats.map Prod.fst).Nodup)
    (hmem : (cat, kws) ∈ cats) (hkw : ∀ k ∈ kws, k ≠ "") :
    get_count (tally_review cats counts r) cat =
      get_count counts cat + (if mentions_category kws r then 1 else 0) := by
  match r with
  | none => simp [tally_review, mentions_category]
  | some t =>
    by_cases ht : t = ""
    · subst ht
      have hfalse : ∀ k ∈ kws, str_in (py_lower k) (py_lower "") = false := by
        intro k hk
        have hne : k.toList ≠ [] := fun h => hkw k hk ((toList_eq_nil_iff k).mp h)
        have : (py_lower k).toList ≠ [] := by
          simp only [py_lower, String.toList]
          simpa using hne
        simp only [str_in, sub_in]
        cases hpk : (py_lower k).toList with
        | nil => exact absurd hpk this
        | cons a l => simp
      have hany : (kws.any fun k => str_in (py_lower k) (py_lower "")) = false := by
        simp only [List.any_eq_false]
        intro k hk
        simp [hfalse k hk]
      simp [tally_review, mentions_category, hany]
    · have hb : (t == "") = false := by simp [beq_eq_false_iff_ne, ht]
      simp only [tally_review, hb, Bool.false_eq_true, if_false]
      rw [tally_cats_get (py_lower t) cats counts cat kws hnd hmem]
      rw [review_hits_eq_any kws (py_lower t) hkw]
      rfl

theorem count_fold_get (reviews : List (Option String))
    (cats : List (String × List String)) (counts : List (String × Nat))
    (cat : String) (kws : List String) (hnd : (cats.map Prod.fst).Nodup)
    (hmem : (cat, kws) ∈ cats) (hkw : ∀ k ∈ kws, k ≠ "") :
    get_count (reviews.foldl (tally_review cats) counts) cat =
      get_count counts cat + (reviews.filter (mentions_category kws)).length := by
  induction reviews generalizing counts with
  | nil => simp
  | cons r rs ih =>
    simp only [List.foldl_cons, List.filter_cons]
    rw [ih (tally_review cats counts r)]
    rw [tally_review_get cats counts r cat kws hnd hmem hkw]
    by_cases hm : mentions_category kws r
    · simp [hm]
      omega
    · have hb : mentions_category kws r = false := by simpa using hm
      simp [hb]

/-- C5: for every review list and category mapping (distinct category names,
keywords non-empty as the loader guarantees), `count_category_mentions`
returns for each category `C` exactly the number of reviews whose
lower-cased text contains at least one lower-cased keyword of `C` as a
substring — each review counted at most once per category — and under these
substring semantics the text `"staffer"` matches the keyword `"staff"`. -/
theorem count_category_mentions_spec :
    (∀ (reviews : List (Option String)) (cats : List (String × List String))
      (cat : String) (kws : List String),
      (cats.map Prod.fst).Nodup → (cat, kws) ∈ cats → (∀ k ∈ kws, k ≠ "") →
      get_count (count_category_mentions reviews cats) cat =
        (reviews.filter (mentions_category kws)).length) ∧
    str_in (py_lower "staff") (py_lower "staffer") = true := by
  constructor
  · intro reviews cats cat kws hnd hmem hkw
    unfold count_category_mentions
    rw [count_fold_get reviews cats [] cat kws hnd hmem hkw]
    simp [get_count]
  · decide

/-- Witness for C5 on the repository test fixture: for the single review
`"The staffer was great."` and the Customer Service keyword list, the
counter reports 1 mention (the quirk the spec documents: the test file
expects 0, the code yields 1). -/
theorem count_category_mentions_spec_witness :
    get_count
      (count_category_mentions [some "The staffer was great."]
        [("Customer Service", ["staff", "service", "helpful", "rude"]),
         ("Wait Time", ["wait", "delay", "appointment"]),
         ("Pricing", ["expensive", "cheap", "price"])])
      "Customer Service" = 1 := by
  rw [count_category_mentions_spec.1 [some "The staffer was great."]
    [("Customer Service", ["staff", "service", "helpful", "rude"]),
     ("Wait Time", ["wait", "delay", "appointment"]),
     ("Pricing", ["expensive", "cheap", "price"])]
    "Customer Service" ["staff", "service", "helpful", "rude"]
    (by decide) (by decide) (by decide)]
  decide

/-! ### Category tagging (`src/app/review_tagger.py`)

A DataFrame review row is embedded as `(foreign_key, comment, date)`,
where `foreign_key` is `row[pk_key]` when the primary-key column exists and
the positional index otherwise (the selection `row[pk_key] if has_pk else
idx`, which precedes the lines under verification, is taken as already
performed). A tag row carries `mapping_version : Option String`: `none`
before the `tagged_df["mapping_version"] = mapping_version` column write,
`some v` after it. -/

/-- Python `str.strip()` (whitespace from both ends). -/
def py_strip (s : String) : String :=
  ⟨((s.toList.dropWhile Char.isWhitespace).reverse.dropWhile
      Char.isWhitespace).reverse⟩

/-- One output row of `tag_reviews_dataframe`. -/
structure TagRow where
  review_foreign_key : String
  category : String
  keyword : String
  review_comment : String
  review_date : String
  mapping_version : Option String
deriving DecidableEq, Repr

/-- The `matches` list: for each review row and each `(category, keywords)`
pair, one row per normalized keyword (`kw.strip().lower()`, empty skipped)
occurring as a substring of the lower-cased review text. -/
def tag_matches (reviews : List (String × String × String))
    (cats : List (String × List String)) : List TagRow :=
  reviews.flatMap (fun r =>
    cats.flatMap (fun ck =>
      ck.2.filterMap (fun kw =>
        let kn := py_lower (py_strip kw)
        if kn == "" then none
        else if str_in kn (py_lower r.2.1) then
          some ⟨r.1, ck.1, kn, r.2.1, r.2.2, none⟩
        else none)))

/-- The pandas `drop_duplicates(subset=...)` with default `keep="first"`:
keep the first row of each key, drop later rows with the same key. -/
def dedup_by_key {α κ : Type} [DecidableEq κ] (key : α → κ) : List α → List α
  | [] => []
  | a :: as => a :: dedup_by_key key (as.filter (fun b => !(key b == key a)))
termination_by l => l.length
decreasing_by
  have := List.length_filter_le (fun b => !(key b == key a)) as
  simp only [List.length_cons]
  omega

/-- The `drop_duplicates` subset used by the source. -/
def tag_key (r : TagRow) : String × String × String :=
  (r.review_foreign_key, r.category, r.keyword)

/-- `tag_reviews_dataframe`: build matches, return the empty frame as-is
(before the `mapping_version` column write), otherwise deduplicate on
`(review_foreign_key, category, keyword)` and stamp the mapping version. -/
def tag_reviews_dataframe (reviews : List (String × String × String))
    (cats : List (String × List String)) (mv : String) : List TagRow :=
  let rows := tag_matches reviews cats
  if rows.isEmpty then rows
  else (dedup_by_key tag_key rows).map
    (fun r => { r with mapping_version := some mv })

/-- `load_review_tags_to_bq`: skip the empty frame, otherwise stamp each row
with the run's `week_start`/`week_end` before the append-mode load. -/
def load_review_tags (tagged : List TagRow) (ws we : Int) :
    List (TagRow × Int × Int) :=
  if tagged.isEmpty then [] else tagged.map (fun r => (r, ws, we))

theorem load_review_tags_eq (tagged : List TagRow) (ws we : Int) :
    load_review_tags tagged ws we = tagged.map (fun r => (r, ws, we)) := by
  unfold load_review_tags
  by_cases h : tagged.isEmpty
  · rw [List.isEmpty_iff] at h
    subst h
    simp
  · simp [h]

/-- The uniqueness key of the claim. -/
def full_tag_key (l : TagRow × Int × Int) :
    (String × String × String) × Option String × Int × Int :=
  (tag_key l.1, l.1.mapping_version, l.2.1, l.2.2)

theorem dedup_by_key_subset {α κ : Type} [DecidableEq κ] (key : α → κ) :
    ∀ (l : List α) (b : α), b ∈ dedup_by_key key l → b ∈ l := by
  intro l
  induction l using dedup_by_key.induct key with
  | case1 => intro b hb; rw [dedup_by_key] at hb; cases hb
  | case2 a as ih =>
    intro b hb
    rw [dedup_by_key] at hb
    rcases List.mem_cons.mp hb with rfl | htail
    · exact List.mem_cons_self _ _
    · exact List.mem_cons_of_mem a (List.mem_of_mem_filter (ih b htail))

theorem dedup_by_key_pairwise {α κ : Type} [DecidableEq κ] (key : α → κ) :
    ∀ l : List α, (dedup_by_key key l).Pairwise (fun a b => key a ≠ key b) := by
  intro l
  induction l using dedup_by_key.induct key with
  | case1 => rw [dedup_by_key]; exact List.Pairwise.nil
  | case2 a as ih =>
    rw [dedup_by_key]
    refine List.Pairwise.cons ?_ ih
    intro b hb heq
    have hmem := dedup_by_key_subset key _ b hb
    have := List.of_mem_filter hmem
    simp only [Bool.not_eq_true'] at this
    rw [beq_eq_false_iff_ne] at this
    exact this heq.symm

/-- C8: within one tagging run, the persisted tag set has at most one row
per `(review_foreign_key, category, keyword, mapping_version, week_start,
week_end)` — duplicates are dropped before persistence — and when no
keyword matches any review the tagger returns the empty collection (not a
null value) without error. -/
theorem tag_reviews_dataframe_spec :
    (∀ (reviews : List (String × String × String))
      (cats : List (String × List String)) (mv : String) (ws we : Int),
      (load_review_tags (tag_reviews_dataframe reviews cats mv) ws we).Pairwise
        (fun a b => full_tag_key a ≠ full_tag_key b)) ∧
    (∀ (reviews : List (String × String × String))
      (cats : List (String × List String)) (mv : String),
      tag_matches reviews cats = [] → tag_reviews_dataframe reviews cats mv = []) := by
  constructor
  · intro reviews cats mv ws we
    rw [load_review_tags_eq]
    by_cases hm : (tag_matches reviews cats).isEmpty
    · have h1 : tag_reviews_dataframe reviews cats mv = tag_matches reviews cats := by
        simp [tag_reviews_dataframe, hm]
      rw [List.isEmpty_iff] at hm
      rw [h1, hm]
      exact List.Pairwise.nil
    · have h1 : tag_reviews_dataframe reviews cats mv =
          (dedup_by_key tag_key (tag_matches reviews cats)).map
            (fun r => { r with mapping_version := some mv }) := by
        simp [tag_reviews_dataframe, hm]
      rw [h1, List.map_map]
      have hp := dedup_by_key_pairwise tag_key (tag_matches reviews cats)
      refine List.Pairwise.map _ ?_ hp
      intro a b hne hfull
      apply hne
      have h2 := congrArg Prod.fst hfull
      simpa [full_tag_key, tag_key] using h2
  · intro reviews cats mv h0
    simp [tag_reviews_dataframe, h0]

/-- Witness for C8: a review mentioning no keyword produces the empty tag
collection. -/
theorem tag_reviews_dataframe_spec_witness :
    tag_reviews_dataframe [("1", "nice food", "2025-01-01")]
      [("Customer Service", ["staff"])] "v1.0" = [] :=
  tag_reviews_dataframe_spec.2 [("1", "nice food", "2025-01-01")]
    [("Customer Service", ["staff"])] "v1.0" (by decide)

/-! ### Backfill week loop (`src/backfill.py` `main`;
`src/main.py` `summarize_and_load` auto-loop)

A week's run outcome is embedded as a `Bool` (`true` = the window processed
without an exception). The loop attempts weeks in order; a failure is
recorded and, when the stop-on-error flag is set, the remaining weeks are
abandoned (`raise` in backfill.py, `break` in main.py). -/

/-- `os.getenv("STOP_ON_ERROR", "true").lower() == "true"`: the flag read,
as a function of the environment variable (`none` = unset). -/
def stop_on_error_flag (env : Option String) : Bool :=
  py_lower (env.getD "true") == "true"

/-- The week loop: returns `(ok, fail, attempted)` counts. -/
def run_weeks (stop : Bool) : List Bool → Nat × Nat × Nat
  | [] => (0, 0, 0)
  | w :: ws =>
    if w then
      let r := run_weeks stop ws
      (r.1 + 1, r.2.1, r.2.2 + 1)
    else if stop then (0, 1, 1)
    else
      let r := run_weeks stop ws
      (r.1, r.2.1 + 1, r.2.2 + 1)

/-- C6 counterexample: with `STOP_ON_ERROR` unset, the flag defaults to
`true`, and a 3-week backfill whose week 2 fails attempts only 2 weeks
(1 success, 1 failure) and never attempts week 3 — the default mode halts,
it does not continue. -/
theorem run_weeks_default_halts :
    stop_on_error_flag none = true ∧
    run_weeks (stop_on_error_flag none) [true, false, true] = (1, 1, 2) ∧
    (run_weeks (stop_on_error_flag none) [true, false, true]).2.2 ≠ 3 := by
  refine ⟨by decide, by decide, by decide⟩

/-- C6 (amended): a week's failure is recorded, and the run continues to the
next week only when the stop-on-error flag is false (which is NOT the
default — `STOP_ON_ERROR` defaults to `"true"`, halting at the first
failure): with the flag false the loop attempts every week and reports
exactly the success/failure counts — in particular 3 consecutive weeks with
week 2 failing report 2 successes, 1 failure, week 3 attempted — while with
the flag true a failure after `n` successes stops after `n + 1` attempts. -/
theorem run_weeks_spec :
    (∀ ws : List Bool, run_weeks false ws =
      (ws.count true, ws.count false, ws.length)) ∧
    run_weeks false [true, false, true] = (2, 1, 3) ∧
    (∀ (n : Nat) (rest : List Bool),
      run_weeks true (List.replicate n true ++ false :: rest) = (n, 1, n + 1)) := by
  refine ⟨?_, by decide, ?_⟩
  · intro ws
    induction ws with
    | nil => rfl
    | cons w t ih => cases w <;> simp [run_weeks, ih, List.count_cons]
  · intro n rest
    induction n with
    | zero => rfl
    | succ m ih => simp [List.replicate_succ, run_weeks, ih]

/-! ### Per-version sub-pipelines in one window (`src/main.py`,
`process_window`, steps 4-5)

The per-version loop body calls `tag_and_load_review_tags` (which can raise,
e.g. from the BigQuery load job), then the grader and its loader, with no
`try/except` around any of them; after the loop, `load_summaries` persists
the summary. Each collaborator call is embedded as `Except String`
(`.error` = a raised exception). -/

/-- The `for mapping_version, keywords_file in VERSIONS` loop: on success
accumulates `tagger_results` and `sentiment_results`; a raised exception
propagates immediately, abandoning the remaining versions. -/
def process_versions (tag : String → Except String Nat)
    (grade_load : String → Except String Bool) :
    List String → Except String (List (String × Nat) × List (String × Bool))
  | [] => Except.ok ([], [])
  | v :: vs =>
    match tag v with
    | Except.error e => Except.error e
    | Except.ok n =>
      match grade_load v with
      | Except.error e => Except.error e
      | Except.ok b =>
        match process_versions tag grade_load vs with
        | Except.error e => Except.error e
        | Except.ok (ts, ss) => Except.ok ((v, n) :: ts, (v, b) :: ss)

/-- The tail of `process_window` after the summarizer text is generated:
run the version loop, then persist the summary (step 5) and assemble the
result dict; a raised exception skips both. -/
def process_window_tail (tag : String → Except String Nat)
    (grade_load : String → Except String Bool) (load_summary : Bool)
    (versions : List String) :
    Except String (List (String × Nat) × List (String × Bool) × Bool) :=
  match process_versions tag grade_load versions with
  | Except.error e => Except.error e
  | Except.ok (ts, ss) => Except.ok (ts, ss, load_summary)

/-- C7 counterexample: a warehouse failure raised by the tagger for mapping
version v1.0 makes the whole window run raise that error — no aggregate
result is produced at all, the remaining versions are never reported, and
the summary persist is skipped — even though v2.0 and v3.0 would succeed. -/
theorem process_window_raises_not_aggregates :
    process_window_tail
      (fun v => if v == "v1.0" then Except.error "warehouse load failed"
                else Except.ok 5)
      (fun _ => Except.ok true) true ["v1.0", "v2.0", "v3.0"]
      = Except.error "warehouse load failed" ∧
    (fun v => if v == "v1.0" then Except.error "warehouse load failed"
              else Except.ok 5) "v2.0" = Except.ok 5 := by
  exact ⟨rfl, rfl⟩

/-- C7 (amended): inside one window, an exception raised by a sub-pipeline
call in the per-version loop (for example the tagger's warehouse load)
propagates immediately out of `process_window`, skipping the remaining
mapping versions and the summary persist; only when every call returns
in-band (as the grader does for model failures, per C9) does the run
produce the aggregate result with one entry per version. -/
theorem process_window_error_propagation :
    (∀ (tag : String → Except String Nat)
      (grade_load : String → Except String Bool) (ls : Bool)
      (v : String) (vs : List String) (e : String),
      tag v = Except.error e →
      process_window_tail tag grade_load ls (v :: vs) = Except.error e) ∧
    (∀ (tagf : String → Nat) (glf : String → Bool) (ls : Bool)
      (versions : List String),
      process_window_tail (fun v => Except.ok (tagf v))
        (fun v => Except.ok (glf v)) ls versions
        = Except.ok (versions.map (fun v => (v, tagf v)),
                     versions.map (fun v => (v, glf v)), ls)) := by
  constructor
  · intro tag grade_load ls v vs e h
    simp [process_window_tail, process_versions, h]
  · intro tagf glf ls versions
    have hv : ∀ vs : List String,
        process_versions (fun v => Except.ok (tagf v))
          (fun v => Except.ok (glf v)) vs
          = Except.ok (vs.map (fun v => (v, tagf v)), vs.map (fun v => (v, glf v))) := by
      intro vs
      induction vs with
      | nil => rfl
      | cons v t ih => simp [process_versions, ih]
    simp [process_window_tail, hv versions]

/-- Witness for C7 (amended) at a concrete erroring tagger. -/
theorem process_window_error_propagation_witness :
    process_window_tail (fun _ => Except.error "boom")
      (fun _ => Except.ok true) true ["v1.0", "v2.0"]
      = Except.error "boom" :=
  process_window_error_propagation.1 (fun _ => Except.error "boom")
    (fun _ => Except.ok true) true "v1.0" ["v2.0"] "boom" rfl

/-! ### Grader response merging (`src/app/sentiment_grader.py`,
`generate_sentiment_grade`, the try-block at lines 202-216)

A parsed Python/JSON value. The outcome of the stdlib call
`json.loads(content)` is supplied as `Option PyObj` (`none` = the call
raised); everything after that point is embedded from the source. -/

inductive PyObj where
  | jstr (s : String)
  | jnum (n : Int)
  | jbool (b : Bool)
  | jnull
  | jarr (xs : List PyObj)
  | jobj (fields : List (String × PyObj))

/-- `_safe_str`: `""` for None/missing, the string itself for `str`, and
Python's `str(value)` rendering otherwise (opaque here; only its use as a
lookup key matters, and non-string categories match no mention count). -/
def safe_str : Option PyObj → String
  | none => ""
  | some (PyObj.jstr s) => s
  | some _ => "<str(value)>"

/-- Python `dict.get(k)` on an (insertion-ordered, unique-keyed) dict. -/
def dict_get (fields : List (String × PyObj)) (k : String) : Option PyObj :=
  (fields.find? (fun p => p.1 == k)).map Prod.snd

/-- Python `entry[k] = v`: overwrite in place, else append. -/
def dict_set (fields : List (String × PyObj)) (k : String) (v : PyObj) :
    List (String × PyObj) :=
  if (fields.find? (fun p => p.1 == k)).isSome then
    fields.map (fun p => if p.1 == k then (p.1, v) else p)
  else fields ++ [(k, v)]

/-- `mention_lower = {str(k).lower(): v for k, v in mention_counts.items()}`
then `.get(cat.lower(), 0)`; on case-colliding keys the comprehension keeps
the last value, hence the reversed search. -/
def mention_lookup (mention_counts : List (String × Nat)) (cat : String) : Nat :=
  ((((mention_counts.map (fun p => (py_lower p.1, p.2))).reverse).find?
      (fun p => p.1 == py_lower cat)).map Prod.snd).getD 0

/-- `entry["mentions"] = mention_lower.get(cat.lower(), 0)`. -/
def attach_mentions (mention_counts : List (String × Nat))
    (fields : List (String × PyObj)) : List (String × PyObj) :=
  dict_set fields "mentions"
    (PyObj.jnum (mention_lookup mention_counts (safe_str (dict_get fields "category"))))

/-- Result of the merge stage: either the graded rows, or the diagnostic
payload `[{"raw_response": content, "mention_counts": mention_counts}]`. -/
inductive GradeResult where
  | graded (rows : List (List (String × PyObj)))
  | diagnostic (raw_response : String) (mention_counts : List (String × Nat))

/-- The merge try-block: `json.loads`, the `isinstance(..., list)` check
(`ValueError` otherwise), and the per-entry `entry.get` loop
(`AttributeError` on a non-dict entry); every exception lands in the
`except` that returns the diagnostic payload. -/
def merge_graded (parsed : Option PyObj) (content : String)
    (mention_counts : List (String × Nat)) : GradeResult :=
  match parsed with
  | none => GradeResult.diagnostic content mention_counts
  | some (PyObj.jarr entries) =>
    if entries.all (fun en => match en with
        | PyObj.jobj _ => true
        | _ => false) then
      GradeResult.graded (entries.map (fun en => match en with
        | PyObj.jobj fields => attach_mentions mention_counts fields
        | _ => []))
    else GradeResult.diagnostic content mention_counts
  | some _ => GradeResult.diagnostic content mention_counts

/-- C9: whenever the model response fails to parse as a JSON array of the
expected shape — `json.loads` raises, or the value is not an array, or the
array holds a non-object entry — `generate_sentiment_grade` returns the
diagnostic payload carrying the raw response text and the computed mention
counts, instead of raising. -/
theorem merge_graded_diagnostic (parsed : Option PyObj) (content : String)
    (counts : List (String × Nat))
    (h : parsed = none ∨ (∀ xs, parsed ≠ some (PyObj.jarr xs)) ∨
      (∃ xs, parsed = some (PyObj.jarr xs) ∧
        ∃ en ∈ xs, ∀ fields, en ≠ PyObj.jobj fields)) :
    merge_graded parsed content counts = GradeResult.diagnostic content counts := by
  rcases h with rfl | hna | ⟨xs, rfl, en, hen, hnobj⟩
  · rfl
  · match parsed with
    | none => rfl
    | some (PyObj.jstr s) => rfl
    | some (PyObj.jnum n) => rfl
    | some (PyObj.jbool b) => rfl
    | some PyObj.jnull => rfl
    | some (PyObj.jobj f) => rfl
    | some (PyObj.jarr xs) => exact absurd rfl (hna xs)
  · have hall : (xs.all (fun en => match en with
        | PyObj.jobj _ => true
        | _ => false)) = false := by
      rw [List.all_eq_false]
      refine ⟨en, hen, ?_⟩
      match en with
      | PyObj.jstr s => simp
      | PyObj.jnum n => simp
      | PyObj.jbool b => simp
      | PyObj.jnull => simp
      | PyObj.jarr l => simp
      | PyObj.jobj f => exact absurd rfl (hnobj f)
    simp only [merge_graded, hall, Bool.false_eq_true, if_false]

/-- Witness for C9: a plain-text (non-JSON-array) model reply `"oops"` with
mention counts `[("Billing", 3)]` yields the diagnostic payload. -/
theorem merge_graded_diagnostic_witness :
    merge_graded (some (PyObj.jstr "oops")) "oops" [("Billing", 3)]
      = GradeResult.diagnostic "oops" [("Billing", 3)] :=
  merge_graded_diagnostic (some (PyObj.jstr "oops")) "oops" [("Billing", 3)]
    (Or.inr (Or.inl (fun xs heq => by cases heq)))

/-! ### Summarizer return shape (`src/app/summarizer.py`,
`generate_summaries`; caller `src/main.py` line 174)

The language-model collaborator is a function from the prompt to the
completion text. -/

/-- The value `generate_summaries` returns: either the bare string of the
empty-batch early return, or the 2-tuple `(wins_text, opps_text)`. -/
inductive SummOut where
  | single (s : String)
  | pair (wins opps : String)

/-- `"\n".join(f"- {r['review_comment']}" for r in reviews if r['review_comment'])`. -/
def review_texts (reviews : List (Option String)) : String :=
  String.intercalate "\n"
    ((reviews.filter (fun r => match r with
      | some t => !(t == "")
      | none => false)).map (fun r => "- " ++ r.getD ""))

/-- The wins prompt (literal preamble around the review block). -/
def prompt_wins (rt : String) : String :=
  "Summarize the following reviews. Focus ONLY on wins: praise, highlights, positive themes. Include context on why the wins occurred based on the reviews. Please output only the TOP 3 most impactful in bullet point format. Make sure a new line character is included in between each bullet point item. Make sure the 3 bullet point items are in order of descending prominence. Reviews: " ++ rt

/-- The opportunities prompt. -/
def prompt_opps (rt : String) : String :=
  "Summarize the following reviews. Focus ONLY on opportunities: complaints, concerns, and areas for improvement. Include context on why the complaints and concerns occurred based on the reviews. Please output only the TOP 3 most impactful in bullet point format. Make sure a new line character is included in between each bullet point item. Make sure the 3 bullet point items are in order of descending prominence. " ++ rt

/-- `generate_summaries(reviews)`: the returned value together with the
number of model calls made. -/
def generate_summaries (llm : String → String) (reviews : List (Option String)) :
    SummOut × Nat :=
  if reviews.isEmpty then (SummOut.single "No new reviews.", 0)
  else
    let rt := review_texts reviews
    (SummOut.pair (llm (prompt_wins rt)) (llm (prompt_opps rt)), 2)

/-- Python tuple unpacking `wins, opps = result`: a 2-tuple unpacks; a
string unpacks into two variables only when it has exactly two characters;
anything else raises ValueError (`none`). -/
def unpack2 : SummOut → Option (String × String)
  | SummOut.pair a b => some (a, b)
  | SummOut.single str =>
    match str.toList with
    | [c1, c2] => some (⟨[c1]⟩, ⟨[c2]⟩)
    | _ => none

/-- C10: `generate_summaries` returns the two-element pair
`(wins_text, opps_text)` for every non-empty review list (two model calls),
but for the empty review list it returns the single string
`"No new reviews."` with zero model calls — a value of a different shape —
so the caller's two-variable unpacking fails on the empty batch. -/
theorem generate_summaries_spec :
    (∀ (llm : String → String) (reviews : List (Option String)),
      reviews ≠ [] →
      generate_summaries llm reviews =
        (SummOut.pair (llm (prompt_wins (review_texts reviews)))
          (llm (prompt_opps (review_texts reviews))), 2)) ∧
    (∀ llm : String → String,
      generate_summaries llm [] = (SummOut.single "No new reviews.", 0)) ∧
    (∀ llm : String → String, unpack2 (generate_summaries llm []).1 = none) := by
  refine ⟨?_, fun llm => rfl, fun llm => rfl⟩
  intro llm reviews hne
  have hb : reviews.isEmpty = false := by
    simpa [List.isEmpty_iff] using hne
  simp [generate_summaries, hb]

/-- Witness for C10 on a one-review batch: the second component records the
two model calls of the pair-shaped return. -/
theorem generate_summaries_spec_witness :
    (generate_summaries (fun _ => "ok") [some "Great staff"]).2 = 2 := by
  rw [generate_summaries_spec.1 (fun _ => "ok") [some "Great staff"]
    (by simp)]

/-! ### Sentiment-grade persistence and versioning
(`src/app/sentiment_grader.py` vs its callers in `src/main.py` and
`src/backfill_runner.py`)

The grader in `src/app/sentiment_grader.py` is unversioned: its parameter
lists and the row dict it persists are transcribed below, next to the
keyword arguments its callers pass. -/

/-- The parameters of `def generate_sentiment_grade(reviews,
model=DEFAULT_MODEL, output_response=False)`. -/
def generate_sentiment_grade_params : List String :=
  ["reviews", "model", "output_response"]

/-- The parameters of `def load_sentiment_grades(start_date, end_date,
graded_data)`. -/
def load_sentiment_grades_params : List String :=
  ["start_date", "end_date", "graded_data"]

/-- The keyword arguments `process_window` passes to the grader
(`src/main.py` lines 194-198; `src/backfill_runner.py` lines 167-171
pass the same). -/
def process_window_grader_kwargs : List String :=
  ["output_response", "keywords_file"]

/-- The keyword arguments `process_window` passes to the grade loader
(`src/main.py` lines 200-205; `src/backfill_runner.py` line 172 passes the
same). -/
def process_window_loader_kwargs : List String := ["mapping_version"]

/-- The row dict literal `load_sentiment_grades` builds for each graded
entry (field name, rendered value); a grade of None renders as null. -/
def sentiment_grade_row (ws we iso category : String) (grade : Option String)
    (mentions : Nat) : List (String × String) :=
  [("week_start", ws), ("week_end", we), ("review_category", category),
   ("sentiment_grade", grade.getD "null"),
   ("count_of_mentions", toString mentions),
   ("insert_timestamp_utc", iso)]

/-- `rows_to_insert`: a graded entry is `(category?, grade?, mentions)`;
entries with falsy category (`None` or `""`) are skipped. -/
def load_sentiment_grades_rows (ws we iso : String)
    (graded : List (Option String × Option String × Nat)) :
    List (List (String × String)) :=
  graded.filterMap (fun entry =>
    match entry.1 with
    | none => none
    | some c =>
      if c == "" then none
      else some (sentiment_grade_row ws we iso c entry.2.1 entry.2.2))

theorem sentiment_grade_row_no_version (ws we iso c : String)
    (g : Option String) (m : Nat) :
    ((sentiment_grade_row ws we iso c g m).find?
      (fun p => p.1 == "mapping_version")).isNone = true := rfl

/-- C1 evidence (the code is the slip): `process_window` invokes the grader
with the keyword argument `keywords_file` and the loader with
`mapping_version`, but the grader accepts neither (a `TypeError` at every
window run), and the rows the loader builds carry no `mapping_version`
field at all — so no persisted sentiment-grade row records a mapping
version, contradicting the callers and the version-filtered delete in
`src/backfill_runner.py`. -/
theorem sentiment_grade_missing_mapping_version :
    ("keywords_file" ∈ process_window_grader_kwargs ∧
     "keywords_file" ∉ generate_sentiment_grade_params) ∧
    ("mapping_version" ∈ process_window_loader_kwargs ∧
     "mapping_version" ∉ load_sentiment_grades_params) ∧
    (∀ (ws we iso : String) (graded : List (Option String × Option String × Nat)),
      ((load_sentiment_grades_rows ws we iso graded).all
        (fun row => (row.find? (fun p => p.1 == "mapping_version")).isNone)) = true) := by
  refine ⟨⟨by decide, by decide⟩, ⟨by decide, by decide⟩, ?_⟩
  intro ws we iso graded
  rw [List.all_eq_true]
  intro row hrow
  rw [load_sentiment_grades_rows, List.mem_filterMap] at hrow
  obtain ⟨entry, -, hmap⟩ := hrow
  match hcat : entry.1 with
  | none => rw [hcat] at hmap; cases hmap
  | some c =>
    rw [hcat] at hmap
    dsimp only at hmap
    by_cases hc : (c == "") = true
    · rw [if_pos hc] at hmap; cases hmap
    · rw [if_neg hc] at hmap
      obtain rfl := Option.some.inj hmap
      exact sentiment_grade_row_no_version ws we iso c entry.2.1 entry.2.2

end ReviewBackfill
